import Mathlib

/-!
# electron-launch-handler — verification of the deep-link queue/dispatch core

Shallow embedding of the repository `biw/electron-launch-handler`
(TypeScript). The stateful `DeepLinkQueue` class becomes a record with
pure state-passing operations; the dispatch pipeline of `deep-links.ts`
becomes functions returning the new state together with the trace of
consumer invocations; fallible parsing returns `Option`; the consumer
callback, which may throw, is embedded as a function into
`Except String Unit`, and the `try/catch` of `dispatchDeepLink` is the
corresponding match.
-/

namespace ElectronLaunchHandler

/-- `DeepLinkIntent` from `src/types.ts`: `'launch' | 'open-url'`. -/
inductive DeepLinkIntent where
  | launch
  | openUrl
  deriving DecidableEq, Repr

/-- `QueuedDeepLink` from `src/queue.ts`: `{ url: string, intent: DeepLinkIntent }`. -/
structure QueuedDeepLink where
  url : String
  intent : DeepLinkIntent
  deriving DecidableEq, Repr

/-- The private state of the `DeepLinkQueue` class from `src/queue.ts`:
`queue: QueuedDeepLink[]` and `processed: boolean`. The logger is
observational only and is omitted. -/
structure DeepLinkQueue where
  queue : List QueuedDeepLink
  processed : Bool
  deriving DecidableEq, Repr

namespace DeepLinkQueue

/-- A fresh `new DeepLinkQueue()`: empty buffer, `processed = false`. -/
def init : DeepLinkQueue := { queue := [], processed := false }

/-- `DeepLinkQueue.enqueue(url, intent)`: returns unchanged when
`processed` is set, otherwise pushes `{ url, intent }`. -/
def enqueue (q : DeepLinkQueue) (url : String) (intent : DeepLinkIntent) :
    DeepLinkQueue :=
  if q.processed then q
  else { q with queue := q.queue ++ [{ url := url, intent := intent }] }

/-- The element-wise clone `(item) => ({ ...item })` used by `drain` and
`peek`: a fresh object with the same fields. -/
def cloneEntry (e : QueuedDeepLink) : QueuedDeepLink :=
  { url := e.url, intent := e.intent }

/-- `DeepLinkQueue.drain()`: if already processed, returns `[]` and leaves
the state alone; otherwise sets `processed`, returns a cloned copy of the
buffer, and empties it. Result is `(returned entries, new state)`. -/
def drain (q : DeepLinkQueue) : List QueuedDeepLink × DeepLinkQueue :=
  if q.processed then ([], q)
  else (q.queue.map cloneEntry, { queue := [], processed := true })

/-- `DeepLinkQueue.peek()`: `this.queue.map((item) => ({ ...item }))`,
no state change. -/
def peek (q : DeepLinkQueue) : List QueuedDeepLink :=
  q.queue.map cloneEntry

/-- `DeepLinkQueue.clear()`: empties the buffer, leaves `processed`. -/
def clear (q : DeepLinkQueue) : DeepLinkQueue :=
  { q with queue := [] }

/-- `DeepLinkQueue.isProcessed()`. -/
def isProcessed (q : DeepLinkQueue) : Bool := q.processed

/-- `DeepLinkQueue.size()`. -/
def size (q : DeepLinkQueue) : Nat := q.queue.length

/-- `DeepLinkQueue.hasItems()`. -/
def hasItems (q : DeepLinkQueue) : Bool := q.queue.length > 0

/-- `DeepLinkQueue.reset()`: empties the buffer and clears `processed`. -/
def reset (_q : DeepLinkQueue) : DeepLinkQueue :=
  { queue := [], processed := false }

end DeepLinkQueue

/-! ## Platform extractors (`src/platforms/macos.ts`, `windows.ts`, `linux.ts`) -/

/-- `s.startsWith(pre)`, embedded on the character lists. -/
def strStartsWith (s pre : String) : Bool :=
  pre.data.isPrefixOf s.data

/-- The inner loop shared by all three extractors: does `arg` start with
`protocol + '://'` for some registered protocol? -/
def argMatchesProtocol (protocols : List String) (arg : String) : Bool :=
  protocols.any (fun protocol => strStartsWith arg (protocol ++ "://"))

/-- `createMacOSHandler().extractDeepLinkFromArgs`: front-to-back scan of
`argv`, returning the first argument matching a registered protocol. -/
def macosExtractDeepLinkFromArgs (argv protocols : List String) :
    Option String :=
  match argv with
  | [] => none
  | arg :: rest =>
    if argMatchesProtocol protocols arg then some arg
    else macosExtractDeepLinkFromArgs rest protocols

/-- `createLinuxHandler().extractDeepLinkFromArgs`: front-to-back scan of
`argv`, same loop as the macOS variant. -/
def linuxExtractDeepLinkFromArgs (argv protocols : List String) :
    Option String :=
  match argv with
  | [] => none
  | arg :: rest =>
    if argMatchesProtocol protocols arg then some arg
    else linuxExtractDeepLinkFromArgs rest protocols

/-- The Windows extractor's loop `for (let i = argv.length - 1; i >= 0; i--)`
expressed as a front-to-back scan of the reversed suffix being walked. -/
def windowsExtractLoop (rev protocols : List String) : Option String :=
  match rev with
  | [] => none
  | arg :: rest =>
    if argMatchesProtocol protocols arg then some arg
    else windowsExtractLoop rest protocols

/-- `createWindowsHandler().extractDeepLinkFromArgs`: back-to-front scan of
`argv`, returning the first match found in that order. -/
def windowsExtractDeepLinkFromArgs (argv protocols : List String) :
    Option String :=
  windowsExtractLoop argv.reverse protocols

/-! ## URL parser (`src/url-parser.ts`)

`parseDeepLink` wraps the host's WHATWG `URL` constructor. The constructor
itself is external library code; it is embedded here for the fragment the
repository exercises: `scheme://host/path?query#hash` decomposition for
non-special schemes, lower-casing of the scheme, and
`application/x-www-form-urlencoded` query parsing with percent-decoding
(as exposed through `URL.searchParams`). -/

/-- ASCII alphabetic, the only characters allowed to start a URL scheme. -/
def isAsciiAlpha (c : Char) : Bool :=
  ('a' ≤ c && c ≤ 'z') || ('A' ≤ c && c ≤ 'Z')

/-- ASCII upper-case letter. -/
def isAsciiUpper (c : Char) : Bool := 'A' ≤ c && c ≤ 'Z'

/-- Characters allowed in a URL scheme after the first one. -/
def isSchemeChar (c : Char) : Bool :=
  isAsciiAlpha c || ('0' ≤ c && c ≤ '9') || c = '+' || c = '-' || c = '.'

/-- ASCII lower-casing of one character, as the URL parser applies to the
scheme. -/
def lowerAscii (c : Char) : Char :=
  if isAsciiUpper c then Char.ofNat (c.toNat + 32) else c

/-- Split `scheme:` off the front of a URL's characters: returns the scheme
characters and the remainder after the colon, or `none` when a character
that is neither a scheme character nor `':'` appears first (or the string
ends before any `':'`). -/
def schemeSplit : List Char → Option (List Char × List Char)
  | [] => none
  | c :: cs =>
    if c = ':' then some ([], cs)
    else if isSchemeChar c then
      (schemeSplit cs).map (fun p => (c :: p.1, p.2))
    else none

/-- The fields of the WHATWG `URL` interface the repository reads:
`protocol` keeps its trailing `':'`, `search` its leading `'?'` and `hash`
its leading `'#'`, as in the browser API. -/
structure URLRecord where
  protocol : String
  host : String
  pathname : String
  search : String
  hash : String
  deriving DecidableEq, Repr

/-- Decompose everything after `scheme:` into host/path/search/hash. With
a `//` authority marker the host runs to the first `/`, `?` or `#`; without
one the path is opaque and the host empty. The `protocol` field is a
placeholder overwritten by the caller. -/
def parseAfterScheme (rest : List Char) : URLRecord :=
  match rest with
  | '/' :: '/' :: afterSlashes =>
    let hostEnd := fun (c : Char) => c ≠ '/' && c ≠ '?' && c ≠ '#'
    let host := afterSlashes.takeWhile hostEnd
    let rest1 := afterSlashes.dropWhile hostEnd
    let pathEnd := fun (c : Char) => c ≠ '?' && c ≠ '#'
    let path := rest1.takeWhile pathEnd
    let rest2 := rest1.dropWhile pathEnd
    { protocol := "", host := String.mk host, pathname := String.mk path,
      search := String.mk (rest2.takeWhile (fun c => c ≠ '#')),
      hash := String.mk (rest2.dropWhile (fun c => c ≠ '#')) }
  | _ =>
    let pathEnd := fun (c : Char) => c ≠ '?' && c ≠ '#'
    let path := rest.takeWhile pathEnd
    let rest2 := rest.dropWhile pathEnd
    { protocol := "", host := "", pathname := String.mk path,
      search := String.mk (rest2.takeWhile (fun c => c ≠ '#')),
      hash := String.mk (rest2.dropWhile (fun c => c ≠ '#')) }

/-- The `new URL(raw)` constructor on the fragment used here: fails when no
scheme followed by `':'` is present or the scheme is empty or does not
start with a letter; on success lower-cases the scheme and decomposes the
remainder. -/
def urlParse (raw : String) : Option URLRecord :=
  match schemeSplit raw.data with
  | some (c0 :: cs, rest) =>
    if isAsciiAlpha c0 then
      some { parseAfterScheme rest with
             protocol := String.mk ((c0 :: cs).map lowerAscii ++ [':']) }
    else none
  | _ => none

/-- Value of a hexadecimal digit. -/
def hexVal (c : Char) : Option Nat :=
  if '0' ≤ c && c ≤ '9' then some (c.toNat - 48)
  else if 'a' ≤ c && c ≤ 'f' then some (c.toNat - 87)
  else if 'A' ≤ c && c ≤ 'F' then some (c.toNat - 55)
  else none

/-- `application/x-www-form-urlencoded` decoding of one token: `'+'`
becomes a space and `%XX` the character with that code; a malformed `%` is
kept literally. -/
def percentDecode : List Char → List Char
  | [] => []
  | '%' :: c1 :: c2 :: rest =>
    match hexVal c1, hexVal c2 with
    | some a, some b => Char.ofNat (16 * a + b) :: percentDecode rest
    | _, _ => '%' :: percentDecode (c1 :: c2 :: rest)
  | c :: rest => c :: percentDecode rest

/-- Split a character list on a separator, keeping empty segments. -/
def splitSep (sep : Char) : List Char → List (List Char)
  | [] => [[]]
  | c :: rest =>
    if c = sep then [] :: splitSep sep rest
    else
      match splitSep sep rest with
      | [] => [[c]]
      | s :: ss => (c :: s) :: ss

/-- Split a query segment at its first `'='`: no `'='` means an empty
value. -/
def splitFirstEq : List Char → List Char × List Char
  | [] => ([], [])
  | '=' :: rest => ([], rest)
  | c :: rest =>
    let p := splitFirstEq rest
    (c :: p.1, p.2)

/-- `URL.searchParams` as an ordered key/value list: drop the leading `'?'`,
split on `'&'`, skip empty segments, split each at the first `'='` and
form-decode names and values. -/
def parseSearchParams (search : String) : List (String × String) :=
  let body := match search.data with
    | '?' :: rest => rest
    | d => d
  ((splitSep '&' body).filter (fun seg => seg ≠ [])).map (fun seg =>
    let p := splitFirstEq seg
    (String.mk (percentDecode p.1), String.mk (percentDecode p.2)))

/-- `protocol.replace(/:$/, '')` from `parseDeepLink`: strip one trailing
colon. -/
def stripTrailingColon (s : String) : String :=
  match s.data.reverse with
  | ':' :: rest => String.mk rest.reverse
  | _ => s

/-- `ParsedDeepLink` from `src/types.ts`, with `params` as the ordered
key/value list `URLSearchParams` holds. -/
structure ParsedDeepLink where
  url : String
  parsed : URLRecord
  protocol : String
  host : String
  path : String
  params : List (String × String)
  hash : String
  deriving DecidableEq, Repr

/-- `parseDeepLink(url)` from `src/url-parser.ts`: `new URL(url)` inside a
`try`, then the protocol with its trailing colon stripped, host, pathname,
searchParams and hash; `null` when the constructor throws. -/
def parseDeepLink (url : String) : Option ParsedDeepLink :=
  match urlParse url with
  | none => none
  | some parsed =>
    some { url := url, parsed := parsed,
           protocol := stripTrailingColon parsed.protocol,
           host := parsed.host, path := parsed.pathname,
           params := parseSearchParams parsed.search, hash := parsed.hash }

/-- `DeepLinkContext` from `src/types.ts`. -/
structure DeepLinkContext where
  url : String
  parsed : URLRecord
  protocol : String
  path : String
  params : List (String × String)
  intent : DeepLinkIntent
  deriving DecidableEq, Repr

/-- `createDeepLinkContext(url, intent)` from `src/url-parser.ts`. -/
def createDeepLinkContext (url : String) (intent : DeepLinkIntent) :
    Option DeepLinkContext :=
  match parseDeepLink url with
  | none => none
  | some parsed =>
    some { url := parsed.url, parsed := parsed.parsed,
           protocol := parsed.protocol, path := parsed.path,
           params := parsed.params, intent := intent }

/-! ## Dispatch pipeline (`src/deep-links.ts`)

The consumer callback `options.onDeepLink` may be missing (`Option`) and
may throw; a throwing callback is a function into `Except String Unit`.
`dispatchDeepLink` records both what propagates to its caller (`result`)
and the consumer invocations it made (`invoked`). -/

/-- The consumer callback type (`DeepLinkHandler` in `src/types.ts`), with
`Except` standing for a possibly-throwing / rejecting handler. -/
def DeepLinkHandler : Type :=
  String → DeepLinkContext → Except String Unit

/-- What one `dispatchDeepLink` call produces: the outcome seen by its
caller and the consumer invocations performed. -/
structure DispatchOutcome where
  result : Except String Unit
  invoked : List (String × DeepLinkContext)
  deriving Repr

/-- `dispatchDeepLink(url, context)` from `src/deep-links.ts`: inside
`try`, awaits `options.onDeepLink(url, context)` when configured; a thrown
error is caught and logged, so both callback outcomes return normally. -/
def dispatchDeepLink (onDeepLink : Option DeepLinkHandler) (url : String)
    (context : DeepLinkContext) : DispatchOutcome :=
  match onDeepLink with
  | some handler =>
    match handler url context with
    | Except.ok _ => { result := Except.ok (), invoked := [(url, context)] }
    | Except.error _ => { result := Except.ok (), invoked := [(url, context)] }
  | none => { result := Except.ok (), invoked := [] }

/-- `handleDeepLink(url, intent)` from `src/deep-links.ts`: parse failure
drops the URL, an unregistered protocol drops it, an unprocessed queue
enqueues it, and otherwise it is dispatched immediately. Returns the new
queue state and the consumer invocations made; the function is total — no
branch raises to the caller. -/
def handleDeepLink (protocols : List String)
    (onDeepLink : Option DeepLinkHandler) (q : DeepLinkQueue)
    (url : String) (intent : DeepLinkIntent) :
    DeepLinkQueue × List (String × DeepLinkContext) :=
  match createDeepLinkContext url intent with
  | none => (q, [])
  | some context =>
    if !(protocols.contains context.protocol) then (q, [])
    else if !q.isProcessed then (q.enqueue url intent, [])
    else (q, (dispatchDeepLink onDeepLink url context).invoked)

/-- The sequential loop of `processPending`: for each drained entry, re-parse
and dispatch. The `Except` threading mirrors exception propagation: were
`dispatchDeepLink` to raise, the loop would stop there. -/
def processPendingLoop (onDeepLink : Option DeepLinkHandler) :
    List QueuedDeepLink → Except String (List (String × DeepLinkContext))
  | [] => Except.ok []
  | entry :: rest =>
    match createDeepLinkContext entry.url entry.intent with
    | some context =>
      let d := dispatchDeepLink onDeepLink entry.url context
      match d.result with
      | Except.ok _ =>
        match processPendingLoop onDeepLink rest with
        | Except.ok more => Except.ok (d.invoked ++ more)
        | Except.error e => Except.error e
      | Except.error e => Except.error e
    | none => processPendingLoop onDeepLink rest

/-- `processPending()` from `src/deep-links.ts`: drains the queue (marking
it processed) and dispatches each drained entry in order. -/
def processPending (onDeepLink : Option DeepLinkHandler)
    (q : DeepLinkQueue) :
    DeepLinkQueue × Except String (List (String × DeepLinkContext)) :=
  let drained := q.drain
  (drained.2, processPendingLoop onDeepLink drained.1)

/-! ## Protocol registry and `setupInstance` wiring
(`src/protocol-registry.ts`, `src/index.ts`) -/

/-- `normalizeProtocols` from `src/protocol-registry.ts`: missing
configuration means no protocols. -/
def normalizeProtocols : Option (List String) → List String
  | none => []
  | some protocols => protocols

/-- `registerProtocols`' loop: each scheme goes to `registered` or `failed`
according to the platform's `registerProtocol` outcome, preserving order.
The platform call is abstracted as the boolean-valued `registerProtocol`. -/
def registerProtocolsLoop (registerProtocol : String → Bool) :
    List String → List String × List String
  | [] => ([], [])
  | scheme :: rest =>
    let p := registerProtocolsLoop registerProtocol rest
    if registerProtocol scheme then (scheme :: p.1, p.2)
    else (p.1, scheme :: p.2)

/-- The `registered`/`failed` lists of `ProtocolRegistryResult`. -/
structure ProtocolRegistryResult where
  registered : List String
  failed : List String
  deriving DecidableEq, Repr

/-- `registerProtocols(options, logger)` from `src/protocol-registry.ts`
(the OS side effect abstracted into `registerProtocol`). -/
def registerProtocols (protocols? : Option (List String))
    (registerProtocol : String → Bool) : ProtocolRegistryResult :=
  let r := registerProtocolsLoop registerProtocol (normalizeProtocols protocols?)
  { registered := r.1, failed := r.2 }

/-- The protocol list `setupInstance` (`src/index.ts`) hands to
`createDeepLinkManager`: `protocolResult.registered`, not the configured
list. -/
def setupInstanceManagerProtocols (protocols? : Option (List String))
    (registerProtocol : String → Bool) : List String :=
  (registerProtocols protocols? registerProtocol).registered

/-! ## Squirrel startup events and the instance lock
(`src/platforms/windows.ts`, `src/instance-lock.ts`) -/

/-- The five `SquirrelEvent` strings from `src/platforms/windows.ts`. -/
def squirrelEvents : List String :=
  ["--squirrel-install", "--squirrel-updated", "--squirrel-uninstall",
   "--squirrel-obsolete", "--squirrel-firstrun"]

/-- `getSquirrelEvent(argv)`: the first argument that is a Squirrel event. -/
def getSquirrelEvent (argv : List String) : Option String :=
  argv.find? (fun arg => squirrelEvents.contains arg)

/-- `createWindowsHandler().handleStartupEvents(options)` reduced to its
control flow: disabled handling or no event returns `false`; the four
install/update/uninstall/obsolete events quit (`true`);
`--squirrel-firstrun` deliberately returns `false` so startup continues.
The shortcut-creation side effects are out of scope. -/
def windowsHandleStartupEvents (handleSquirrelEvents? : Option Bool)
    (argv : List String) : Bool :=
  if handleSquirrelEvents? = some false then false
  else
    match getSquirrelEvent argv with
    | none => false
    | some event =>
      if event = "--squirrel-install" then true
      else if event = "--squirrel-updated" then true
      else if event = "--squirrel-uninstall" then true
      else if event = "--squirrel-obsolete" then true
      else if event = "--squirrel-firstrun" then false
      else false

/-- Trace of one `acquireInstanceLock` run (`src/instance-lock.ts`):
whether `app.requestSingleInstanceLock()` was ever called, and the
`hasLock` field of the returned `LockResult`. -/
structure AcquireTrace where
  lockRequested : Bool
  hasLock : Bool
  deriving DecidableEq, Repr

/-- `acquireInstanceLock` from `src/instance-lock.ts`: when
`platformHandler.handleStartupEvents?.(options)` is true it returns
`hasLock: false` without requesting the lock; otherwise the OS lock is
requested and its outcome (`requestSingleInstanceLock`) becomes
`hasLock`. -/
def acquireInstanceLock (startupEventQuit : Bool)
    (requestSingleInstanceLock : Bool) : AcquireTrace :=
  if startupEventQuit then { lockRequested := false, hasLock := false }
  else { lockRequested := true, hasLock := requestSingleInstanceLock }

/-- `acquireInstanceLock` on Windows, where `handleStartupEvents` is the
Squirrel handler above. -/
def acquireInstanceLockWindows (handleSquirrelEvents? : Option Bool)
    (argv : List String) (requestSingleInstanceLock : Bool) : AcquireTrace :=
  acquireInstanceLock (windowsHandleStartupEvents handleSquirrelEvents? argv)
    requestSingleInstanceLock

/-! ## Heap model for `peek`'s defensive copy (`src/queue.ts`)

The pure `DeepLinkQueue` above cannot express JavaScript aliasing, so the
copy in `peek() { return this.queue.map((item) => ({ ...item })) }` gets an
explicit store: entry objects live at numeric addresses, the queue's
internal array holds addresses, and `({ ...item })` allocates a fresh
address per element. Mutating an object is updating the store at its
address. -/

/-- JS-heap view of a `DeepLinkQueue`: `store` maps object addresses to
entry contents, `nextId` is the allocation frontier, `queueIds` is the
internal array of entry addresses. -/
structure QueueHeapState where
  store : Nat → QueuedDeepLink
  nextId : Nat
  queueIds : List Nat
  processed : Bool

namespace QueueHeapState

/-- Every live internal address lies below the allocation frontier. -/
def wf (s : QueueHeapState) : Prop :=
  ∀ id ∈ s.queueIds, id < s.nextId

/-- The pure queue a heap state denotes. -/
def abs (s : QueueHeapState) : DeepLinkQueue :=
  { queue := s.queueIds.map s.store, processed := s.processed }

/-- `peek()` in the heap model: one fresh address per entry, holding a
clone `({ ...item })` of that entry; returns the fresh addresses and the
grown heap. Internal array and `processed` untouched. -/
def peekAlloc (s : QueueHeapState) : List Nat × QueueHeapState :=
  let n := s.queueIds.length
  (((List.range n).map (fun i => s.nextId + i)),
   { store := fun id =>
       if s.nextId ≤ id ∧ id < s.nextId + n then
         DeepLinkQueue.cloneEntry (s.store (s.queueIds.getD (id - s.nextId) 0))
       else s.store id,
     nextId := s.nextId + n,
     queueIds := s.queueIds,
     processed := s.processed })

/-- A caller mutating the entry object at address `id`. -/
def mutateEntry (s : QueueHeapState) (id : Nat) (v : QueuedDeepLink) :
    QueueHeapState :=
  { s with store := Function.update s.store id v }

end QueueHeapState

/-! ## Helper lemmas -/

theorem cloneEntry_id : DeepLinkQueue.cloneEntry = id :=
  funext (fun _ => rfl)

theorem foldl_enqueue_unprocessed
    (entries : List (String × DeepLinkIntent)) (q : DeepLinkQueue)
    (h : q.processed = false) :
    (entries.foldl (fun acc e => acc.enqueue e.1 e.2) q).queue
        = q.queue ++ entries.map (fun e => { url := e.1, intent := e.2 })
      ∧ (entries.foldl (fun acc e => acc.enqueue e.1 e.2) q).processed
        = false := by
  induction entries generalizing q with
  | nil => simp [h]
  | cons e rest ih =>
    have hq : (q.enqueue e.1 e.2).processed = false := by
      simp [DeepLinkQueue.enqueue, h]
    obtain ⟨h1, h2⟩ := ih (q.enqueue e.1 e.2) hq
    refine ⟨?_, by simpa using h2⟩
    simp only [List.foldl_cons] at *
    rw [h1]
    simp [DeepLinkQueue.enqueue, h]

theorem macosExtract_eq_find (argv protocols : List String) :
    macosExtractDeepLinkFromArgs argv protocols
      = argv.find? (argMatchesProtocol protocols) := by
  induction argv with
  | nil => rfl
  | cons a rest ih =>
    by_cases h : argMatchesProtocol protocols a
    · simp [macosExtractDeepLinkFromArgs, List.find?_cons, h]
    · simp [macosExtractDeepLinkFromArgs, List.find?_cons, h, ih]

theorem linuxExtract_eq_find (argv protocols : List String) :
    linuxExtractDeepLinkFromArgs argv protocols
      = argv.find? (argMatchesProtocol protocols) := by
  induction argv with
  | nil => rfl
  | cons a rest ih =>
    by_cases h : argMatchesProtocol protocols a
    · simp [linuxExtractDeepLinkFromArgs, List.find?_cons, h]
    · simp [linuxExtractDeepLinkFromArgs, List.find?_cons, h, ih]

theorem windowsExtract_eq_find (argv protocols : List String) :
    windowsExtractDeepLinkFromArgs argv protocols
      = argv.reverse.find? (argMatchesProtocol protocols) := by
  show windowsExtractLoop argv.reverse protocols = _
  induction argv.reverse with
  | nil => rfl
  | cons a rest ih =>
    by_cases h : argMatchesProtocol protocols a
    · simp [windowsExtractLoop, List.find?_cons, h]
    · simp [windowsExtractLoop, List.find?_cons, h, ih]

/-! ## Claims -/

/-- C2: starting from a fresh (or freshly reset) queue, any sequence of
`enqueue` calls followed by the first `drain()` yields exactly those
entries in enqueue order and leaves the queue empty (`size() = 0`);
`reset()` of any queue is the fresh queue; concretely, enqueueing
`myapp://first`, `myapp://second`, `myapp://third` with intent `launch`
and draining returns exactly those three entries in order. -/
theorem queue_fifo_first_drain
    (entries : List (String × DeepLinkIntent)) (q0 : DeepLinkQueue) :
    (((entries.foldl (fun acc e => acc.enqueue e.1 e.2)
          DeepLinkQueue.init).drain).1
        = entries.map (fun e => { url := e.1, intent := e.2 })
      ∧ ((entries.foldl (fun acc e => acc.enqueue e.1 e.2)
          DeepLinkQueue.init).drain).2.size = 0)
    ∧ q0.reset = DeepLinkQueue.init
    ∧ ((([("myapp://first", DeepLinkIntent.launch),
          ("myapp://second", DeepLinkIntent.launch),
          ("myapp://third", DeepLinkIntent.launch)]).foldl
            (fun acc e => acc.enqueue e.1 e.2) DeepLinkQueue.init).drain).1
        = [{ url := "myapp://first", intent := DeepLinkIntent.launch },
           { url := "myapp://second", intent := DeepLinkIntent.launch },
           { url := "myapp://third", intent := DeepLinkIntent.launch }] := by
  obtain ⟨hq, hp⟩ :=
    foldl_enqueue_unprocessed entries DeepLinkQueue.init rfl
  have hdrain :
      ((entries.foldl (fun acc e => acc.enqueue e.1 e.2)
          DeepLinkQueue.init).drain)
        = ((entries.foldl (fun acc e => acc.enqueue e.1 e.2)
            DeepLinkQueue.init).queue,
           { queue := [], processed := true }) := by
    unfold DeepLinkQueue.drain
    rw [hp]
    simp [cloneEntry_id]
  refine ⟨⟨?_, ?_⟩, rfl, by decide⟩
  · rw [hdrain]
    simpa [DeepLinkQueue.init] using hq
  · rw [hdrain]
    rfl

/-- C3: the `processed` flag is a one-shot gate. After any `drain()` the
state is processed; on a processed state `enqueue` is the identity and
`drain` returns the empty sequence leaving the state unchanged; an
explicit `reset()` restores the initial state (empty buffer,
`processed = false`), re-enabling the cycle. -/
theorem queue_one_shot_processed_gate
    (q : DeepLinkQueue) (url : String) (intent : DeepLinkIntent) :
    ((q.drain).2.processed = true)
    ∧ ((q.drain).2.enqueue url intent = (q.drain).2)
    ∧ ((q.drain).2.drain = ([], (q.drain).2))
    ∧ (q.processed = true → q.enqueue url intent = q ∧ q.drain = ([], q))
    ∧ (q.reset = DeepLinkQueue.init
       ∧ DeepLinkQueue.init.processed = false
       ∧ DeepLinkQueue.init.queue = []) := by
  by_cases h : q.processed
  · simp [DeepLinkQueue.drain, DeepLinkQueue.enqueue, DeepLinkQueue.reset,
      DeepLinkQueue.init, h]
  · simp [DeepLinkQueue.drain, DeepLinkQueue.enqueue, DeepLinkQueue.reset,
      DeepLinkQueue.init, h]

/-- C5: the macOS and Linux extractors return the first element of `argv`
(front-to-back) matching `protocol + '://'` for a registered protocol, the
Windows extractor the first such element scanning back-to-front; all
return `none` when nothing matches; on
`['exe', 'myapp://a', 'myapp://b']` with protocols `{myapp}` Windows
yields `myapp://b` and macOS/Linux yield `myapp://a`. -/
theorem extractor_scan_order (argv protocols : List String) :
    (macosExtractDeepLinkFromArgs argv protocols
        = argv.find? (argMatchesProtocol protocols))
    ∧ (linuxExtractDeepLinkFromArgs argv protocols
        = argv.find? (argMatchesProtocol protocols))
    ∧ (windowsExtractDeepLinkFromArgs argv protocols
        = argv.reverse.find? (argMatchesProtocol protocols))
    ∧ ((∀ arg ∈ argv, argMatchesProtocol protocols arg = false) →
        macosExtractDeepLinkFromArgs argv protocols = none
        ∧ linuxExtractDeepLinkFromArgs argv protocols = none
        ∧ windowsExtractDeepLinkFromArgs argv protocols = none)
    ∧ windowsExtractDeepLinkFromArgs ["exe", "myapp://a", "myapp://b"]
        ["myapp"] = some "myapp://b"
    ∧ macosExtractDeepLinkFromArgs ["exe", "myapp://a", "myapp://b"]
        ["myapp"] = some "myapp://a"
    ∧ linuxExtractDeepLinkFromArgs ["exe", "myapp://a", "myapp://b"]
        ["myapp"] = some "myapp://a" := by
  refine ⟨macosExtract_eq_find argv protocols,
    linuxExtract_eq_find argv protocols,
    windowsExtract_eq_find argv protocols, ?_, by decide, by decide, by decide⟩
  intro hnone
  have hfind : argv.find? (argMatchesProtocol protocols) = none := by
    rw [List.find?_eq_none]
    intro x hx
    simp [hnone x hx]
  have hfindr : argv.reverse.find? (argMatchesProtocol protocols) = none := by
    rw [List.find?_eq_none]
    intro x hx
    simp [hnone x (List.mem_reverse.mp hx)]
  exact ⟨by rw [macosExtract_eq_find, hfind],
    by rw [linuxExtract_eq_find, hfind],
    by rw [windowsExtract_eq_find, hfindr]⟩

theorem dispatch_invoked (handler : DeepLinkHandler) (url : String)
    (context : DeepLinkContext) :
    (dispatchDeepLink (some handler) url context).invoked
      = [(url, context)] := by
  unfold dispatchDeepLink
  cases h : handler url context <;> simp [h]

theorem dispatch_result_ok (onDeepLink : Option DeepLinkHandler)
    (url : String) (context : DeepLinkContext) :
    (dispatchDeepLink onDeepLink url context).result = Except.ok () := by
  unfold dispatchDeepLink
  cases onDeepLink with
  | none => rfl
  | some handler => cases h : handler url context <;> simp [h]

theorem createDeepLinkContext_intent (url : String)
    (intent : DeepLinkIntent) (context : DeepLinkContext)
    (h : createDeepLinkContext url intent = some context) :
    context.intent = intent := by
  unfold createDeepLinkContext at h
  cases hp : parseDeepLink url with
  | none => rw [hp] at h; cases h
  | some p => rw [hp] at h; cases h; rfl

/-- The context `createDeepLinkContext "myapp://x" .launch` evaluates to,
used to instantiate hypotheses at a concrete input. -/
def sampleContext : DeepLinkContext :=
  { url := "myapp://x",
    parsed := { protocol := "myapp:", host := "x", pathname := "",
                search := "", hash := "" },
    protocol := "myapp", path := "", params := [],
    intent := DeepLinkIntent.launch }

/-- C1: for a URL that parses and whose scheme is registered,
`handleDeepLink` routes on the queue's `processed` flag: unprocessed ⇒
append `(url, intent)` to the queue and no consumer invocation;
processed ⇒ exactly one consumer invocation with `(url, context)` where
`context.intent` carries the given intent, and the queue does not grow. -/
theorem handleDeepLink_routes_on_processed
    (protocols : List String) (handler : DeepLinkHandler)
    (q : DeepLinkQueue) (url : String) (intent : DeepLinkIntent)
    (context : DeepLinkContext)
    (hctx : createDeepLinkContext url intent = some context)
    (hmem : protocols.contains context.protocol = true) :
    (q.processed = false →
      handleDeepLink protocols (some handler) q url intent
          = (q.enqueue url intent, [])
      ∧ (q.enqueue url intent).queue
          = q.queue ++ [{ url := url, intent := intent }])
    ∧ (q.processed = true →
      handleDeepLink protocols (some handler) q url intent
          = (q, [(url, context)])
      ∧ context.intent = intent) := by
  have hmem' : context.protocol ∈ protocols := by simpa using hmem
  constructor
  · intro hproc
    constructor
    · unfold handleDeepLink
      rw [hctx]
      simp [hmem', DeepLinkQueue.isProcessed, hproc]
    · simp [DeepLinkQueue.enqueue, hproc]
  · intro hproc
    refine ⟨?_, createDeepLinkContext_intent url intent context hctx⟩
    unfold handleDeepLink
    rw [hctx]
    simp [hmem', DeepLinkQueue.isProcessed, hproc, dispatch_invoked]

/-- Witness for C1 at `myapp://x`, protocol list `["myapp"]`, on a fresh
queue and on a processed queue. -/
theorem handleDeepLink_routes_on_processed_witness :
    handleDeepLink ["myapp"] (some (fun _ _ => Except.ok ()))
        { queue := [], processed := false } "myapp://x"
        DeepLinkIntent.launch
      = ({ queue := [{ url := "myapp://x",
                       intent := DeepLinkIntent.launch }],
           processed := false }, [])
    ∧ handleDeepLink ["myapp"] (some (fun _ _ => Except.ok ()))
        { queue := [], processed := true } "myapp://x"
        DeepLinkIntent.launch
      = ({ queue := [], processed := true },
         [("myapp://x", sampleContext)]) := by
  have h1 := handleDeepLink_routes_on_processed ["myapp"]
    (fun _ _ => Except.ok ()) { queue := [], processed := false }
    "myapp://x" DeepLinkIntent.launch sampleContext (by decide) (by decide)
  have h2 := handleDeepLink_routes_on_processed ["myapp"]
    (fun _ _ => Except.ok ()) { queue := [], processed := true }
    "myapp://x" DeepLinkIntent.launch sampleContext (by decide) (by decide)
  exact ⟨(h1.1 rfl).1, (h2.2 rfl).1⟩

/-- C4: a URL that fails to parse, or whose scheme is not registered, is
dropped: no consumer invocation, queue (entries and flag) unchanged; in
particular `handle('other://x', launch)` with protocol list `["myapp"]`
drops the URL. `handleDeepLink` is a total function, so neither case
raises an error to the caller. -/
theorem handleDeepLink_drops_invalid_and_unregistered
    (protocols : List String) (onDeepLink : Option DeepLinkHandler)
    (q : DeepLinkQueue) (url : String) (intent : DeepLinkIntent) :
    (createDeepLinkContext url intent = none →
      handleDeepLink protocols onDeepLink q url intent = (q, []))
    ∧ (∀ context, createDeepLinkContext url intent = some context →
        protocols.contains context.protocol = false →
        handleDeepLink protocols onDeepLink q url intent = (q, []))
    ∧ handleDeepLink ["myapp"] onDeepLink q "other://x"
        DeepLinkIntent.launch = (q, []) := by
  refine ⟨?_, ?_, ?_⟩
  · intro h
    unfold handleDeepLink
    rw [h]
  · intro context h hmem
    have hmem' : context.protocol ∉ protocols := by
      simpa using hmem
    unfold handleDeepLink
    rw [h]
    simp [hmem']
  · have hm : (["myapp"].contains ("other" : String)) = false := by decide
    unfold handleDeepLink
    rw [show createDeepLinkContext "other://x" DeepLinkIntent.launch
        = some { url := "other://x",
                 parsed := { protocol := "other:", host := "x",
                             pathname := "", search := "", hash := "" },
                 protocol := "other", path := "", params := [],
                 intent := DeepLinkIntent.launch } from by decide]
    simp [hm]

theorem processPendingLoop_dispatches_all (handler : DeepLinkHandler)
    (entries : List QueuedDeepLink) :
    processPendingLoop (some handler) entries
      = Except.ok (entries.filterMap (fun entry =>
          (createDeepLinkContext entry.url entry.intent).map
            (fun c => (entry.url, c)))) := by
  induction entries with
  | nil => rfl
  | cons e rest ih =>
    unfold processPendingLoop
    cases hc : createDeepLinkContext e.url e.intent with
    | none => simp [hc, ih, List.filterMap_cons]
    | some context =>
      simp [hc, ih, List.filterMap_cons, dispatch_result_ok,
        dispatch_invoked]

/-- C8: a consumer-callback failure is caught at the dispatch boundary —
`dispatchDeepLink` always returns `ok` to its caller, whatever the
callback does — and `processPending` dispatches every parsable drained
entry in order, with a result list independent of which entries the
callback fails on. -/
theorem consumer_failure_contained (handler : DeepLinkHandler)
    (url : String) (context : DeepLinkContext) (q : DeepLinkQueue) :
    ((dispatchDeepLink (some handler) url context).result = Except.ok ())
    ∧ ((processPending (some handler) q).2
        = Except.ok ((q.drain).1.filterMap (fun entry =>
            (createDeepLinkContext entry.url entry.intent).map
              (fun c => (entry.url, c))))) := by
  refine ⟨dispatch_result_ok _ url context, ?_⟩
  unfold processPending
  exact processPendingLoop_dispatches_all handler (q.drain).1

theorem mem_registered_of_registerProtocolsLoop
    (registerProtocol : String → Bool) (l : List String) (s : String)
    (h : s ∈ (registerProtocolsLoop registerProtocol l).1) :
    registerProtocol s = true := by
  induction l with
  | nil => cases h
  | cons a rest ih =>
    unfold registerProtocolsLoop at h
    by_cases ha : registerProtocol a
    · simp only [ha, if_pos] at h
      rcases List.mem_cons.mp h with h | h
      · subst h; exact ha
      · exact ih h
    · simp only [ha, if_neg, Bool.false_eq_true, not_false_eq_true] at h
      exact ih h

/-- C10: `setupInstance` hands `createDeepLinkManager` exactly
`registerProtocols(...).registered`; every member of that list had a
successful platform registration; hence a URL whose scheme failed to
register is dropped by `handleDeepLink` exactly like an unregistered
scheme — no enqueue, no consumer invocation. -/
theorem dispatch_filter_is_registered_subset
    (protocols? : Option (List String)) (registerProtocol : String → Bool)
    (onDeepLink : Option DeepLinkHandler) (q : DeepLinkQueue)
    (url : String) (intent : DeepLinkIntent) :
    (setupInstanceManagerProtocols protocols? registerProtocol
        = (registerProtocols protocols? registerProtocol).registered)
    ∧ (∀ s ∈ (registerProtocols protocols? registerProtocol).registered,
        registerProtocol s = true)
    ∧ (∀ context, createDeepLinkContext url intent = some context →
        registerProtocol context.protocol = false →
        handleDeepLink
            (setupInstanceManagerProtocols protocols? registerProtocol)
            onDeepLink q url intent = (q, [])) := by
  refine ⟨rfl, ?_, ?_⟩
  · intro s hs
    exact mem_registered_of_registerProtocolsLoop registerProtocol
      (normalizeProtocols protocols?) s hs
  · intro context hctx hreg
    have hnot : context.protocol ∉
        setupInstanceManagerProtocols protocols? registerProtocol := by
      intro hmem
      have := mem_registered_of_registerProtocolsLoop registerProtocol
        (normalizeProtocols protocols?) context.protocol hmem
      rw [this] at hreg
      cases hreg
    unfold handleDeepLink
    rw [hctx]
    simp [hnot]

/-- C7 counterexample: `--squirrel-firstrun` is a recognized
`--squirrel-*` argument (`getSquirrelEvent` returns it), Squirrel handling
is enabled (no `windows` options), yet `acquireInstanceLock` does request
the single-instance lock and reports `hasLock = true` when the OS grants
it — contradicting the claim that a recognized startup event always skips
the lock and yields `hasLock = false`. -/
theorem squirrel_firstrun_requests_lock :
    getSquirrelEvent ["app.exe", "--squirrel-firstrun"]
        = some "--squirrel-firstrun"
    ∧ acquireInstanceLockWindows none ["app.exe", "--squirrel-firstrun"]
        true
      = { lockRequested := true, hasLock := true } := by
  decide

/-- C7 (amended): for every recognized Squirrel startup event other than
`--squirrel-firstrun`, with Squirrel handling enabled, the Windows
`acquireInstanceLock` returns `hasLock = false` without ever requesting
the single-instance lock. (`--squirrel-firstrun` is recognized but
`handleStartupEvents` returns `false` for it, so startup continues and the
lock is requested.) -/
theorem startup_event_skips_lock
    (handleSquirrelEvents? : Option Bool) (argv : List String)
    (requestSingleInstanceLock : Bool) (event : String)
    (hev : getSquirrelEvent argv = some event)
    (hfr : event ≠ "--squirrel-firstrun")
    (hen : handleSquirrelEvents? ≠ some false) :
    acquireInstanceLockWindows handleSquirrelEvents? argv
        requestSingleInstanceLock
      = { lockRequested := false, hasLock := false } := by
  have hmem : event ∈ squirrelEvents := by
    have := List.find?_some hev
    simpa using this
  have hquit :
      windowsHandleStartupEvents handleSquirrelEvents? argv = true := by
    unfold windowsHandleStartupEvents
    rw [if_neg hen, hev]
    simp only [squirrelEvents, List.mem_cons, List.mem_singleton,
      List.not_mem_nil, or_false] at hmem
    rcases hmem with h | h | h | h | h
    · subst h; rfl
    · subst h; rfl
    · subst h; rfl
    · subst h; rfl
    · exact absurd h hfr
  unfold acquireInstanceLockWindows acquireInstanceLock
  rw [hquit]
  simp

/-- Witness for C7's amended theorem at `--squirrel-install`. -/
theorem startup_event_skips_lock_witness :
    acquireInstanceLockWindows none ["app.exe", "--squirrel-install"] true
      = { lockRequested := false, hasLock := false } :=
  startup_event_skips_lock none ["app.exe", "--squirrel-install"] true
    "--squirrel-install" (by decide) (by decide) (by decide)

theorem toNat_ofNat_valid (n : Nat) (h : n.isValidChar) :
    (Char.ofNat n).toNat = n := by
  unfold Char.ofNat
  rw [dif_pos h]
  rfl

theorem isAsciiUpper_lowerAscii (c : Char) :
    isAsciiUpper (lowerAscii c) = false := by
  unfold lowerAscii
  by_cases h : isAsciiUpper c = true
  · rw [if_pos h]
    unfold isAsciiUpper at h
    simp only [Bool.and_eq_true, decide_eq_true_eq] at h
    have h1 : (65 : Nat) ≤ c.toNat := h.1
    have h2 : c.toNat ≤ 90 := h.2
    have hv : (c.toNat + 32).isValidChar := Or.inl (by omega)
    have hnot : ¬(Char.ofNat (c.toNat + 32) ≤ 'Z') := by
      intro hle
      have hle' : (Char.ofNat (c.toNat + 32)).toNat ≤ 90 := hle
      rw [toNat_ofNat_valid _ hv] at hle'
      omega
    unfold isAsciiUpper
    simp [hnot]
  · rw [if_neg h]
    simpa using h

theorem lowerAscii_ne_colon (c : Char) (hc : isSchemeChar c = true) :
    lowerAscii c ≠ ':' := by
  unfold lowerAscii
  by_cases h : isAsciiUpper c = true
  · rw [if_pos h]
    unfold isAsciiUpper at h
    simp only [Bool.and_eq_true, decide_eq_true_eq] at h
    have h1 : (65 : Nat) ≤ c.toNat := h.1
    have h2 : c.toNat ≤ 90 := h.2
    have hv : (c.toNat + 32).isValidChar := Or.inl (by omega)
    intro heq
    have : (Char.ofNat (c.toNat + 32)).toNat = (58 : Nat) := by rw [heq]; rfl
    rw [toNat_ofNat_valid _ hv] at this
    omega
  · rw [if_neg h]
    intro heq
    subst heq
    exact absurd hc (by decide)

theorem schemeSplit_chars (cs : List Char) (s r : List Char)
    (h : schemeSplit cs = some (s, r)) :
    ∀ c ∈ s, isSchemeChar c = true := by
  induction cs generalizing s with
  | nil => cases h
  | cons c0 rest ih =>
    unfold schemeSplit at h
    by_cases hc : c0 = ':'
    · rw [if_pos hc] at h
      cases h
      intro c hc'
      cases hc'
    · rw [if_neg hc] at h
      by_cases hsc : isSchemeChar c0 = true
      · rw [if_pos hsc] at h
        cases hrec : schemeSplit rest with
        | none => rw [hrec] at h; cases h
        | some p =>
          rw [hrec] at h
          obtain ⟨s', r'⟩ := p
          have h' : some (c0 :: s', r') = some (s, r) := h
          cases h'
          intro c hmem
          rcases List.mem_cons.mp hmem with rfl | hmem'
          · exact hsc
          · exact ih s' hrec c hmem'
      · rw [if_neg hsc] at h
        cases h

theorem stripTrailingColon_append_colon (cs : List Char) :
    stripTrailingColon (String.mk (cs ++ [':'])) = String.mk cs := by
  unfold stripTrailingColon
  have hdata : (String.mk (cs ++ [':'])).data = cs ++ [':'] := rfl
  rw [hdata, List.reverse_append]
  simp

theorem urlParse_protocol (raw : String) (rec : URLRecord)
    (h : urlParse raw = some rec) :
    ∃ scheme rest, schemeSplit raw.data = some (scheme, rest)
      ∧ (∀ c ∈ scheme, isSchemeChar c = true)
      ∧ rec.protocol = String.mk (scheme.map lowerAscii ++ [':']) := by
  unfold urlParse at h
  split at h
  case _ c0 cs rest hs =>
    split at h
    · cases h
      exact ⟨c0 :: cs, rest, hs,
        schemeSplit_chars raw.data (c0 :: cs) rest hs, rfl⟩
    · cases h
  case _ => cases h

theorem parseDeepLink_success_props (raw : String) (p : ParsedDeepLink)
    (h : parseDeepLink raw = some p) :
    p.url = raw
    ∧ p.protocol.data.all (fun c => !isAsciiUpper c) = true
    ∧ p.protocol.data.all (fun c => decide (c ≠ ':')) = true := by
  unfold parseDeepLink at h
  cases hu : urlParse raw with
  | none => rw [hu] at h; cases h
  | some rec =>
    rw [hu] at h
    cases h
    obtain ⟨scheme, rest, _hs, hchars, hproto⟩ :=
      urlParse_protocol raw rec hu
    refine ⟨rfl, ?_, ?_⟩
    · show (stripTrailingColon rec.protocol).data.all _ = true
      rw [hproto, stripTrailingColon_append_colon]
      rw [List.all_eq_true]
      intro c hc
      rcases List.mem_map.mp hc with ⟨c', _hc', rfl⟩
      simp [isAsciiUpper_lowerAscii]
    · show (stripTrailingColon rec.protocol).data.all _ = true
      rw [hproto, stripTrailingColon_append_colon]
      rw [List.all_eq_true]
      intro c hc
      rcases List.mem_map.mp hc with ⟨c', hc', rfl⟩
      simpa using lowerAscii_ne_colon c' (hchars c' hc')

/-- C6: `parseDeepLink` returns `null` on strings that are not valid
absolute URLs (empty string, no scheme, empty scheme); on every success
the `url` field is the input unchanged and the `protocol` field contains
no ASCII upper-case letter and no `':'` (no trailing separator); query
values are percent-decoded, and
`parseDeepLink('myapp://auth/callback?code=abc123&state=xyz')` yields
protocol `myapp`, path `/callback` and query `code=abc123`, `state=xyz`. -/
theorem parseDeepLink_contract :
    (parseDeepLink "" = none)
    ∧ (parseDeepLink "not a url" = none)
    ∧ (parseDeepLink "://missing-protocol" = none)
    ∧ (∀ raw p, parseDeepLink raw = some p →
        p.url = raw
        ∧ p.protocol.data.all (fun c => !isAsciiUpper c) = true
        ∧ p.protocol.data.all (fun c => decide (c ≠ ':')) = true)
    ∧ (∃ p, parseDeepLink "myapp://auth/callback?code=abc123&state=xyz"
          = some p
        ∧ p.protocol = "myapp" ∧ p.path = "/callback"
        ∧ p.params = [("code", "abc123"), ("state", "xyz")]
        ∧ p.url = "myapp://auth/callback?code=abc123&state=xyz")
    ∧ (∃ p, parseDeepLink "myapp://search?q=hello%20world" = some p
        ∧ p.params = [("q", "hello world")]) := by
  refine ⟨by decide, by decide, by decide,
    parseDeepLink_success_props, ⟨_, rfl, ?_, ?_, ?_, rfl⟩,
    ⟨_, rfl, ?_⟩⟩ <;> decide

theorem peekAlloc_fst (s : QueueHeapState) :
    (s.peekAlloc).1
      = (List.range s.queueIds.length).map (fun i => s.nextId + i) := rfl

theorem peekAlloc_queueIds (s : QueueHeapState) :
    (s.peekAlloc).2.queueIds = s.queueIds := rfl

theorem peekAlloc_processed (s : QueueHeapState) :
    (s.peekAlloc).2.processed = s.processed := rfl

theorem peekAlloc_store (s : QueueHeapState) :
    (s.peekAlloc).2.store = fun id =>
      if s.nextId ≤ id ∧ id < s.nextId + s.queueIds.length then
        DeepLinkQueue.cloneEntry (s.store (s.queueIds.getD (id - s.nextId) 0))
      else s.store id := rfl

theorem peekAlloc_store_old (s : QueueHeapState) (hwf : s.wf)
    (id : Nat) (hid : id ∈ s.queueIds) :
    (s.peekAlloc).2.store id = s.store id := by
  rw [peekAlloc_store]
  have hlt := hwf id hid
  have hno : ¬(s.nextId ≤ id ∧ id < s.nextId + s.queueIds.length) := by
    omega
  simp only
  rw [if_neg hno]

theorem peekAlloc_abs (s : QueueHeapState) (hwf : s.wf) :
    (s.peekAlloc).2.abs = s.abs := by
  unfold QueueHeapState.abs
  rw [peekAlloc_queueIds, peekAlloc_processed]
  congr 1
  exact List.map_congr_left (fun id hid => peekAlloc_store_old s hwf id hid)

theorem peekAlloc_fresh (s : QueueHeapState) (hwf : s.wf) :
    ∀ id ∈ (s.peekAlloc).1, id ∉ s.queueIds := by
  intro id hid hmem
  rw [peekAlloc_fst] at hid
  rcases List.mem_map.mp hid with ⟨i, _hi, rfl⟩
  have := hwf _ hmem
  omega

/-- C9: in the heap model, `peek()` leaves the internal array and the
`processed` flag untouched and its denoted pure queue unchanged; the
returned addresses read back as a structurally equal snapshot of the
current entries; and every returned address is fresh, so mutating any
returned entry object changes neither the denoted queue nor the result of
any later `peek`, `drain`, or `size` call. -/
theorem peek_defensive_copy (s : QueueHeapState) (hwf : s.wf) :
    ((s.peekAlloc).1.map (s.peekAlloc).2.store = s.queueIds.map s.store)
    ∧ ((s.peekAlloc).2.queueIds = s.queueIds)
    ∧ ((s.peekAlloc).2.processed = s.processed)
    ∧ ((s.peekAlloc).2.abs = s.abs)
    ∧ (∀ id ∈ (s.peekAlloc).1, id ∉ s.queueIds)
    ∧ (∀ id ∈ (s.peekAlloc).1, ∀ v,
        (((s.peekAlloc).2.mutateEntry id v).abs = s.abs)
        ∧ (((s.peekAlloc).2.mutateEntry id v).abs.peek = s.abs.peek)
        ∧ (((s.peekAlloc).2.mutateEntry id v).abs.drain = s.abs.drain)
        ∧ (((s.peekAlloc).2.mutateEntry id v).abs.size = s.abs.size)) := by
  have hsnap :
      (s.peekAlloc).1.map (s.peekAlloc).2.store = s.queueIds.map s.store := by
    rw [peekAlloc_fst, peekAlloc_store, List.map_map]
    apply List.ext_getElem
    · simp
    · intro i h1 h2
      simp only [List.getElem_map, List.getElem_range, Function.comp_apply]
      have hi : i < s.queueIds.length := by simpa using h1
      have hcond : s.nextId ≤ s.nextId + i
          ∧ s.nextId + i < s.nextId + s.queueIds.length :=
        ⟨Nat.le_add_right _ _, by omega⟩
      rw [if_pos hcond]
      have hsub : s.nextId + i - s.nextId = i := by omega
      rw [hsub, List.getD_eq_getElem s.queueIds 0 hi]
      rfl
  have hmut : ∀ id ∈ (s.peekAlloc).1, ∀ v,
      ((s.peekAlloc).2.mutateEntry id v).abs = s.abs := by
    intro id hid v
    unfold QueueHeapState.mutateEntry QueueHeapState.abs
    simp only
    rw [peekAlloc_queueIds, peekAlloc_processed]
    have habs := peekAlloc_abs s hwf
    unfold QueueHeapState.abs at habs
    rw [peekAlloc_queueIds, peekAlloc_processed] at habs
    have hqueue : s.queueIds.map (s.peekAlloc).2.store
        = s.queueIds.map s.store := congrArg DeepLinkQueue.queue habs
    refine congrArg₂ DeepLinkQueue.mk ?_ rfl
    rw [← hqueue]
    apply List.map_congr_left
    intro qid hqid
    have hne : qid ≠ id := fun h => peekAlloc_fresh s hwf id hid (h ▸ hqid)
    exact Function.update_noteq hne v (s.peekAlloc).2.store
  refine ⟨hsnap, rfl, rfl, peekAlloc_abs s hwf, peekAlloc_fresh s hwf,
    ?_⟩
  intro id hid v
  have h := hmut id hid v
  exact ⟨h, by rw [h], by rw [h], by rw [h]⟩

/-- A concrete two-entry heap state for the C9 witness. -/
def sampleHeap : QueueHeapState :=
  { store := fun _ => { url := "myapp://x", intent := DeepLinkIntent.launch },
    nextId := 2, queueIds := [0, 1], processed := false }

theorem sampleHeap_wf : sampleHeap.wf :=
  show ∀ id ∈ sampleHeap.queueIds, id < sampleHeap.nextId from by decide

/-- Witness for C9: on `sampleHeap`, address `2` is one of the addresses
`peek` returns, and overwriting the entry object there leaves the denoted
queue unchanged. -/
theorem peek_defensive_copy_witness :
    (2 ∈ (sampleHeap.peekAlloc).1)
    ∧ ((sampleHeap.peekAlloc).2.mutateEntry 2
          { url := "mutated", intent := DeepLinkIntent.openUrl }).abs
        = sampleHeap.abs := by
  refine ⟨by decide, ?_⟩
  exact ((peek_defensive_copy sampleHeap sampleHeap_wf).2.2.2.2.2 2
    (by decide) { url := "mutated", intent := DeepLinkIntent.openUrl }).1

end ElectronLaunchHandler
